import Mathlib

/-!
# Verification of the `GraphNode` scene-graph example

Shallow embedding of the `GraphNode` class from `cpp-style-guide.md`
(sections on smart-pointer ownership).  Nodes are identified by `Nat`
ids; the heap of nodes is a `GraphState` mapping each id to its parent
reference (`weak_ptr<GraphNode> parent`, modelled as `Option Nat`) and
its child collection (`vector<shared_ptr<GraphNode>> children`,
modelled as `List Nat`).  The member functions `append`, `setParent`
and `remove` are translated statement by statement, preserving the
order of mutations.
-/

set_option autoImplicit false

namespace GraphNode

/-- The state of all nodes: each node id has a parent reference
(`weak_ptr`, `none` when expired/unset) and an ordered child list. -/
structure GraphState where
  parent : Nat → Option Nat
  children : Nat → List Nat

/-- Primitive mutation: assign node `n`'s parent reference. -/
def setParentRef (s : GraphState) (n : Nat) (p : Option Nat) : GraphState :=
  { s with parent := fun i => if i = n then p else s.parent i }

/-- Primitive mutation: replace node `n`'s child list. -/
def setChildList (s : GraphState) (n : Nat) (cs : List Nat) : GraphState :=
  { s with children := fun i => if i = n then cs else s.children i }

/-- `GraphNode::remove(GraphNode *node)` invoked on object `self`:
if `node->parent.lock() == shared_from_this()`, reset the node's
parent and erase every child whose identity (pointer) equals `node`
from `self`'s child collection; otherwise do nothing. -/
def removeOp (s : GraphState) (self node : Nat) : GraphState :=
  if s.parent node = some self then
    let s1 := setParentRef s node none
    setChildList s1 self ((s1.children self).filter (fun c => c != node))
  else s

/-- `GraphNode::setParent(node)` invoked on object `self`: lock the
previous parent; if it exists, have it `remove(this)`; then assign
the parent reference to `node`. -/
def setParentOp (s : GraphState) (self node : Nat) : GraphState :=
  let s1 := match s.parent self with
    | some q => removeOp s q self
    | none => s
  setParentRef s1 self (some node)

/-- `GraphNode::append(node)` invoked on object `self`:
`children.push_back(node); node->setParent(shared_from_this());`. -/
def appendOp (s : GraphState) (self node : Nat) : GraphState :=
  let s1 := setChildList s self (s.children self ++ [node])
  setParentOp s1 node self

/-- The public operations of the API. -/
inductive Op where
  | append (p c : Nat)
  | remove (p c : Nat)
deriving DecidableEq, Repr

/-- Apply one operation to a state. -/
def applyOp (s : GraphState) : Op → GraphState
  | Op.append p c => appendOp s p c
  | Op.remove p c => removeOp s p c

/-- Run a sequence of operations. -/
def runOps (s : GraphState) : List Op → GraphState
  | [] => s
  | o :: os => runOps (applyOp s o) os

/-- Freshly created nodes: every node unparented with no children. -/
def initState : GraphState :=
  { parent := fun _ => none, children := fun _ => [] }

/-! ## Micro-step traces

For the temporal claim about re-parenting we record every state the
program passes through at the sequence points inside one `append`
call, in source order. -/

/-- The states inside `remove` after each of its two mutations
(`node->parent.reset()`, then `children.erase(...)`); empty when the
guard fails and nothing is mutated. -/
def removeTrace (s : GraphState) (self node : Nat) : List GraphState :=
  if s.parent node = some self then
    let s1 := setParentRef s node none
    let s2 := setChildList s1 self ((s1.children self).filter (fun c => c != node))
    [s1, s2]
  else []

/-- The states inside `setParent` after each mutation: the states of
the nested `remove` call (when a previous parent exists), then the
state after `parent = node`. -/
def setParentTrace (s : GraphState) (self node : Nat) : List GraphState :=
  match s.parent self with
  | some q => removeTrace s q self ++ [setParentRef (removeOp s q self) self (some node)]
  | none => [setParentRef s self (some node)]

/-- All states an `append` call passes through: the entry state, the
state after `children.push_back(node)`, then the states of the nested
`setParent` call. -/
def appendTrace (s : GraphState) (self node : Nat) : List GraphState :=
  let s1 := setChildList s self (s.children self ++ [node])
  s :: s1 :: setParentTrace s1 node self

/-! ## Basic unfolding lemmas -/

theorem setParentRef_parent (s : GraphState) (n : Nat) (p : Option Nat) (i : Nat) :
    (setParentRef s n p).parent i = if i = n then p else s.parent i := rfl

theorem setParentRef_children (s : GraphState) (n : Nat) (p : Option Nat) (i : Nat) :
    (setParentRef s n p).children i = s.children i := rfl

theorem setChildList_children (s : GraphState) (n : Nat) (cs : List Nat) (i : Nat) :
    (setChildList s n cs).children i = if i = n then cs else s.children i := rfl

theorem setChildList_parent (s : GraphState) (n : Nat) (cs : List Nat) (i : Nat) :
    (setChildList s n cs).parent i = s.parent i := rfl


/-! ## Pointwise characterizations of the operations -/

theorem removeOp_parent_hit (s : GraphState) (n c : Nat) (h : s.parent c = some n) (i : Nat) :
    (removeOp s n c).parent i = if i = c then none else s.parent i := by
  simp only [removeOp, if_pos h, setChildList_parent, setParentRef_parent]

theorem removeOp_children_hit (s : GraphState) (n c : Nat) (h : s.parent c = some n) (i : Nat) :
    (removeOp s n c).children i =
      if i = n then (s.children n).filter (fun x => x != c) else s.children i := by
  simp only [removeOp, if_pos h, setChildList_children, setParentRef_children]

theorem removeOp_miss (s : GraphState) (n c : Nat) (h : s.parent c ≠ some n) :
    removeOp s n c = s := by
  simp only [removeOp, if_neg h]

theorem appendOp_parent (s : GraphState) (p c i : Nat) :
    (appendOp s p c).parent i = if i = c then some p else s.parent i := by
  cases hpc : s.parent c with
  | none =>
      simp only [appendOp, setParentOp, setChildList_parent, hpc, setParentRef_parent]
  | some q0 =>
      have h1 : (setChildList s p (s.children p ++ [c])).parent c = some q0 := hpc
      simp only [appendOp, setParentOp, setChildList_parent, hpc]
      rw [setParentRef_parent]
      by_cases hic : i = c
      · rw [if_pos hic, if_pos hic]
      · rw [if_neg hic, if_neg hic, removeOp_parent_hit _ _ _ h1 i, if_neg hic,
          setChildList_parent]

theorem appendOp_children_none (s : GraphState) (p c : Nat) (h : s.parent c = none) (i : Nat) :
    (appendOp s p c).children i =
      if i = p then s.children p ++ [c] else s.children i := by
  simp only [appendOp, setParentOp, setChildList_parent, h, setParentRef_children,
    setChildList_children]

theorem appendOp_children_some (s : GraphState) (p c q0 : Nat) (h : s.parent c = some q0) (i : Nat) :
    (appendOp s p c).children i =
      if i = q0 then
        ((if q0 = p then s.children p ++ [c] else s.children q0).filter (fun x => x != c))
      else if i = p then s.children p ++ [c] else s.children i := by
  have h1 : (setChildList s p (s.children p ++ [c])).parent c = some q0 := h
  simp only [appendOp, setParentOp, setChildList_parent, h, setParentRef_children]
  rw [removeOp_children_hit _ _ _ h1 i]
  simp only [setChildList_children]

/-! ## The linking invariant -/

/-- If node `c` appears in node `p`'s child collection then `c`'s
parent reference resolves to `p` (spec invariant 2); the single-parent
property (spec invariant 1) follows from it. -/
def ChildParentConsistent (s : GraphState) : Prop :=
  ∀ c p, c ∈ s.children p → s.parent c = some p

theorem childParentConsistent_removeOp (s : GraphState) (n c : Nat)
    (h : ChildParentConsistent s) : ChildParentConsistent (removeOp s n c) := by
  intro d q hd
  by_cases hpc : s.parent c = some n
  · rw [removeOp_children_hit _ _ _ hpc] at hd
    rw [removeOp_parent_hit _ _ _ hpc]
    by_cases hq : q = n
    · subst hq
      rw [if_pos rfl] at hd
      have hmem := List.mem_filter.mp hd
      have hdc : d ≠ c := by simpa using hmem.2
      rw [if_neg hdc]
      exact h d q hmem.1
    · rw [if_neg hq] at hd
      have hpd := h d q hd
      by_cases hdc : d = c
      · subst hdc
        rw [hpc] at hpd
        exact absurd (Option.some.inj hpd).symm hq
      · rw [if_neg hdc]
        exact hpd
  · rw [removeOp_miss _ _ _ hpc] at hd ⊢
    exact h d q hd

theorem childParentConsistent_appendOp (s : GraphState) (p c : Nat)
    (h : ChildParentConsistent s) : ChildParentConsistent (appendOp s p c) := by
  intro d q hd
  rw [appendOp_parent]
  cases hpc : s.parent c with
  | none =>
      rw [appendOp_children_none _ _ _ hpc] at hd
      by_cases hdc : d = c
      · subst hdc
        rw [if_pos rfl]
        by_cases hq : q = p
        · rw [hq]
        · rw [if_neg hq] at hd
          have := h d q hd
          rw [hpc] at this
          exact absurd this (by simp)
      · rw [if_neg hdc]
        by_cases hq : q = p
        · subst hq
          rw [if_pos rfl] at hd
          rcases List.mem_append.mp hd with h1 | h1
          · exact h d q h1
          · exact absurd (List.mem_singleton.mp h1) hdc
        · rw [if_neg hq] at hd
          exact h d q hd
  | some q0 =>
      rw [appendOp_children_some _ _ _ _ hpc] at hd
      by_cases hdc : d = c
      · subst hdc
        rw [if_pos rfl]
        by_cases hq : q = q0
        · subst hq
          rw [if_pos rfl] at hd
          have hmem := List.mem_filter.mp hd
          simp at hmem
        · rw [if_neg hq] at hd
          by_cases hqp : q = p
          · rw [hqp]
          · rw [if_neg hqp] at hd
            have := h d q hd
            rw [hpc] at this
            exact absurd (Option.some.inj this) (fun he => hq he.symm)
      · rw [if_neg hdc]
        by_cases hq : q = q0
        · subst hq
          rw [if_pos rfl] at hd
          have hmem := (List.mem_filter.mp hd).1
          by_cases hqp : q = p
          · subst hqp
            rw [if_pos rfl] at hmem
            rcases List.mem_append.mp hmem with h1 | h1
            · exact h d q h1
            · exact absurd (List.mem_singleton.mp h1) hdc
          · rw [if_neg hqp] at hmem
            exact h d q hmem
        · rw [if_neg hq] at hd
          by_cases hqp : q = p
          · subst hqp
            rw [if_pos rfl] at hd
            rcases List.mem_append.mp hd with h1 | h1
            · exact h d q h1
            · exact absurd (List.mem_singleton.mp h1) hdc
          · rw [if_neg hqp] at hd
            exact h d q hd

theorem childParentConsistent_applyOp (s : GraphState) (o : Op)
    (h : ChildParentConsistent s) : ChildParentConsistent (applyOp s o) := by
  cases o with
  | append p c => exact childParentConsistent_appendOp s p c h
  | remove p c => exact childParentConsistent_removeOp s p c h

theorem childParentConsistent_runOps (s : GraphState) (ops : List Op)
    (h : ChildParentConsistent s) : ChildParentConsistent (runOps s ops) := by
  induction ops generalizing s with
  | nil => exact h
  | cons o os ih => exact ih (applyOp s o) (childParentConsistent_applyOp s o h)

theorem childParentConsistent_initState : ChildParentConsistent initState := by
  intro c p hc
  exact absurd hc (List.not_mem_nil c)


/-! ## Small list facts used by the claims -/

theorem not_mem_filter_bne (c : Nat) (l : List Nat) : c ∉ l.filter (fun x => x != c) := by
  intro h
  have := (List.mem_filter.mp h).2
  simp at this

theorem count_filter_bne (d c : Nat) (l : List Nat) (h : d ≠ c) :
    (l.filter (fun x => x != c)).count d = l.count d := by
  rw [List.count_filter]
  simp [h]

/-! ## The claims -/

/-- C1: Single-parent invariant.  For every node `b` and every finite
sequence of `append`/`remove` operations starting from freshly created
unparented nodes, at most one node has `b` in its child collection:
two parents holding `b` are equal. -/
theorem single_parent_invariant (ops : List Op) (b p1 p2 : Nat)
    (h1 : b ∈ (runOps initState ops).children p1)
    (h2 : b ∈ (runOps initState ops).children p2) : p1 = p2 := by
  have hc := childParentConsistent_runOps initState ops childParentConsistent_initState
  exact Option.some.inj ((hc b p1 h1).symm.trans (hc b p2 h2))

/-- Witness for C1 at a concrete run. -/
theorem single_parent_invariant_witness :
    1 ∈ (runOps initState [Op.append 0 1]).children 0 ∧ (0 : Nat) = 0 :=
  ⟨by decide, single_parent_invariant [Op.append 0 1] 1 0 0 (by decide) (by decide)⟩

/-- C2 counterexample: the guarantee of `append` fails when the child
is appended to its current parent.  After `append(P, C)` on a
reachable state where `C`'s parent is already `P`, `C`'s parent still
resolves to `P` but `C` is absent from `P`'s child collection. -/
theorem append_guarantee_cex :
    (appendOp (runOps initState [Op.append 0 1]) 0 1).parent 1 = some 0 ∧
      1 ∉ (appendOp (runOps initState [Op.append 0 1]) 0 1).children 0 := by decide

/-- C2 (amended): in a consistent state, when the child's parent does
not already resolve to the appending node, `append(P, C)` leaves `C`
in `P`'s child collection, `C`'s parent resolving to `P`, and `P` is
the only node whose child collection contains `C`. -/
theorem append_establishes_link (s : GraphState) (p c : Nat)
    (hInv : ChildParentConsistent s) (h : s.parent c ≠ some p) :
    c ∈ (appendOp s p c).children p ∧ (appendOp s p c).parent c = some p ∧
      ∀ q, c ∈ (appendOp s p c).children q → q = p := by
  refine ⟨?_, ?_, ?_⟩
  · cases hpc : s.parent c with
    | none =>
        rw [appendOp_children_none _ _ _ hpc, if_pos rfl]
        exact List.mem_append_right _ (List.mem_singleton.mpr rfl)
    | some q0 =>
        have hq0 : q0 ≠ p := fun he => h (hpc.trans (congrArg some he))
        rw [appendOp_children_some _ _ _ _ hpc, if_neg (fun he => hq0 he.symm), if_pos rfl]
        exact List.mem_append_right _ (List.mem_singleton.mpr rfl)
  · rw [appendOp_parent, if_pos rfl]
  · intro q hq
    have hc := childParentConsistent_appendOp s p c hInv c q hq
    rw [appendOp_parent, if_pos rfl] at hc
    exact (Option.some.inj hc).symm
/-- Witness for the amended C2 at a concrete reachable state. -/
theorem append_establishes_link_witness :
    (runOps initState [Op.append 0 1]).parent 1 ≠ some 2 ∧
      (1 ∈ (appendOp (runOps initState [Op.append 0 1]) 2 1).children 2 ∧
        (appendOp (runOps initState [Op.append 0 1]) 2 1).parent 1 = some 2 ∧
        ∀ q, 1 ∈ (appendOp (runOps initState [Op.append 0 1]) 2 1).children q → q = 2) :=
  ⟨by decide, append_establishes_link _ 2 1
    (childParentConsistent_runOps initState [Op.append 0 1] childParentConsistent_initState)
    (by decide)⟩

/-- C3: Re-parenting removes the old linkage.  For distinct nodes
`p1`, `p2`, `c` in a consistent state with `c` a child of `p1`, after
`append(p2, c)` the node `c` is absent from `p1`'s children, present
in `p2`'s children, and its parent resolves to `p2`. -/
theorem reparent_removes_old_link (s : GraphState) (p1 p2 c : Nat)
    (hInv : ChildParentConsistent s) (h12 : p1 ≠ p2) (_h1c : p1 ≠ c) (_h2c : p2 ≠ c)
    (hc : c ∈ s.children p1) :
    c ∉ (appendOp s p2 c).children p1 ∧ c ∈ (appendOp s p2 c).children p2 ∧
      (appendOp s p2 c).parent c = some p2 := by
  have hp : s.parent c = some p1 := hInv c p1 hc
  refine ⟨?_, ?_, ?_⟩
  · rw [appendOp_children_some _ _ _ _ hp, if_pos rfl, if_neg h12]
    exact not_mem_filter_bne c _
  · rw [appendOp_children_some _ _ _ _ hp, if_neg (fun he => h12 he.symm), if_pos rfl]
    exact List.mem_append_right _ (List.mem_singleton.mpr rfl)
  · rw [appendOp_parent, if_pos rfl]
/-- Witness for C3 at a concrete reachable state. -/
theorem reparent_removes_old_link_witness :
    ((0 : Nat) ≠ 1 ∧ (0 : Nat) ≠ 2 ∧ (1 : Nat) ≠ 2 ∧
        2 ∈ (runOps initState [Op.append 0 2]).children 0) ∧
      (2 ∉ (appendOp (runOps initState [Op.append 0 2]) 1 2).children 0 ∧
        2 ∈ (appendOp (runOps initState [Op.append 0 2]) 1 2).children 1 ∧
        (appendOp (runOps initState [Op.append 0 2]) 1 2).parent 2 = some 1) :=
  ⟨⟨by decide, by decide, by decide, by decide⟩,
    reparent_removes_old_link _ 0 1 2
      (childParentConsistent_runOps initState [Op.append 0 2] childParentConsistent_initState)
      (by decide) (by decide) (by decide) (by decide)⟩

/-- C4: Remove clears both sides.  In a consistent state with `c` a
child of `p`, after `remove(p, c)` the node `c` is absent from `p`'s
child collection and `c`'s parent reference resolves to absent. -/
theorem remove_clears_both_sides (s : GraphState) (p c : Nat)
    (hInv : ChildParentConsistent s) (hc : c ∈ s.children p) :
    c ∉ (removeOp s p c).children p ∧ (removeOp s p c).parent c = none := by
  have hp : s.parent c = some p := hInv c p hc
  constructor
  · rw [removeOp_children_hit _ _ _ hp, if_pos rfl]
    exact not_mem_filter_bne c _
  · rw [removeOp_parent_hit _ _ _ hp, if_pos rfl]
/-- Witness for C4 at a concrete reachable state. -/
theorem remove_clears_both_sides_witness :
    1 ∈ (runOps initState [Op.append 0 1]).children 0 ∧
      (1 ∉ (removeOp (runOps initState [Op.append 0 1]) 0 1).children 0 ∧
        (removeOp (runOps initState [Op.append 0 1]) 0 1).parent 1 = none) :=
  ⟨by decide, remove_clears_both_sides _ 0 1
    (childParentConsistent_runOps initState [Op.append 0 1] childParentConsistent_initState)
    (by decide)⟩

/-- C5: Remove is a no-op for a non-matching parent.  When `c`'s
parent reference does not resolve to `n` (including when `c` has no
parent), `remove(n, c)` leaves every node's child collection and every
node's parent reference unchanged. -/
theorem remove_nonparent_noop (s : GraphState) (n c : Nat) (h : s.parent c ≠ some n) :
    (∀ i, (removeOp s n c).children i = s.children i) ∧
      (∀ i, (removeOp s n c).parent i = s.parent i) := by
  rw [removeOp_miss s n c h]
  exact ⟨fun _ => rfl, fun _ => rfl⟩
/-- Witness for C5 at a concrete reachable state. -/
theorem remove_nonparent_noop_witness :
    (runOps initState [Op.append 0 1]).parent 1 ≠ some 2 ∧
      ((∀ i, (removeOp (runOps initState [Op.append 0 1]) 2 1).children i =
          (runOps initState [Op.append 0 1]).children i) ∧
        (∀ i, (removeOp (runOps initState [Op.append 0 1]) 2 1).parent i =
          (runOps initState [Op.append 0 1]).parent i)) :=
  ⟨by decide, remove_nonparent_noop _ 2 1 (by decide)⟩

/-- C6: the concrete scenario of the spec.  With `A = 0`, `B = 1`,
`C = 2`: after `append(A,B)`, `A.children = [B]` and `B.parent = A`;
after `append(A,C)`, `A.children = [B, C]`; after `append(B,C)`,
`A.children = [B]`, `B.children = [C]`, `C.parent = B`; after
`remove(B,C)`, `A.children = [B]`, `B.children = []`,
`C.parent = absent`. -/
theorem concrete_scenario :
    ((runOps initState [Op.append 0 1]).children 0 = [1] ∧
      (runOps initState [Op.append 0 1]).parent 1 = some 0) ∧
    ((runOps initState [Op.append 0 1, Op.append 0 2]).children 0 = [1, 2]) ∧
    ((runOps initState [Op.append 0 1, Op.append 0 2, Op.append 1 2]).children 0 = [1] ∧
      (runOps initState [Op.append 0 1, Op.append 0 2, Op.append 1 2]).children 1 = [2] ∧
      (runOps initState [Op.append 0 1, Op.append 0 2, Op.append 1 2]).parent 2 = some 1) ∧
    ((runOps initState [Op.append 0 1, Op.append 0 2, Op.append 1 2, Op.remove 1 2]).children 0 = [1] ∧
      (runOps initState [Op.append 0 1, Op.append 0 2, Op.append 1 2, Op.remove 1 2]).children 1 = [] ∧
      (runOps initState [Op.append 0 1, Op.append 0 2, Op.append 1 2, Op.remove 1 2]).parent 2 = none) := by
  decide

/-- C7: identity-based removal.  When `c`'s parent resolves to `p`,
`remove(p, c)` erases every occurrence of the identity `c` from `p`'s
child collection, while every distinct identity `d` keeps its
multiplicity in `p`'s child collection and its parent reference —
regardless of whether `d`'s fields equal `c`'s. -/
theorem remove_by_identity (s : GraphState) (p c : Nat) (hp : s.parent c = some p) :
    ((removeOp s p c).children p).count c = 0 ∧
      (∀ d, d ≠ c → ((removeOp s p c).children p).count d = (s.children p).count d) ∧
      (∀ d, d ≠ c → (removeOp s p c).parent d = s.parent d) := by
  refine ⟨?_, ?_, ?_⟩
  · rw [removeOp_children_hit _ _ _ hp, if_pos rfl]
    exact List.count_eq_zero.mpr (not_mem_filter_bne c _)
  · intro d hd
    rw [removeOp_children_hit _ _ _ hp, if_pos rfl]
    exact count_filter_bne d c _ hd
  · intro d hd
    rw [removeOp_parent_hit _ _ _ hp, if_neg hd]
/-- Witness for C7 at a concrete reachable state holding two children. -/
theorem remove_by_identity_witness :
    (runOps initState [Op.append 0 1, Op.append 0 2]).parent 1 = some 0 ∧
      (((removeOp (runOps initState [Op.append 0 1, Op.append 0 2]) 0 1).children 0).count 1 = 0 ∧
        (∀ d, d ≠ 1 →
          ((removeOp (runOps initState [Op.append 0 1, Op.append 0 2]) 0 1).children 0).count d =
            ((runOps initState [Op.append 0 1, Op.append 0 2]).children 0).count d) ∧
        (∀ d, d ≠ 1 →
          (removeOp (runOps initState [Op.append 0 1, Op.append 0 2]) 0 1).parent d =
            (runOps initState [Op.append 0 1, Op.append 0 2]).parent d)) :=
  ⟨by decide, remove_by_identity _ 0 1 (by decide)⟩

/-- C8: the code permits a node to become its own ancestor.  Appending
a fresh node to itself leaves it listed among its own children with
its parent reference resolving to itself — a cycle, so the claimed
"no node is its own ancestor" tree invariant fails on the code. -/
theorem self_append_creates_cycle :
    0 ∈ (appendOp initState 0 0).children 0 ∧ (appendOp initState 0 0).parent 0 = some 0 := by
  decide

/-- C9 counterexample: during the re-parenting `append(P2, C)` with
`P1 = 0`, `P2 = 1`, `C = 2` and `C` a child of `P1`, some intermediate
state of the call (namely the one right after `children.push_back`)
has `C` listed in both `P1`'s and `P2`'s child collections. -/
theorem reparent_transient_double_listing :
    ∃ t ∈ appendTrace (runOps initState [Op.append 0 2]) 1 2,
      2 ∈ t.children 0 ∧ 2 ∈ t.children 1 := by decide

/-- C9 (amended): during re-parenting the detach completes before the
parent-pointer attach is observable — no intermediate state of
`append(p2, c)` has `c`'s parent reference resolving to `p2` while `c`
is still listed in the old parent `p1`'s child collection.  (`c` is,
however, transiently listed in both child collections, since `append`
pushes onto the new parent's collection before detaching.) -/
theorem reparent_no_transient_new_parent (s : GraphState) (p1 p2 c : Nat)
    (hInv : ChildParentConsistent s) (h12 : p1 ≠ p2) (hc : c ∈ s.children p1) :
    ∀ t ∈ appendTrace s p2 c, ¬(t.parent c = some p2 ∧ c ∈ t.children p1) := by
  have hp : s.parent c = some p1 := hInv c p1 hc
  have hp1 : (setChildList s p2 (s.children p2 ++ [c])).parent c = some p1 := hp
  have hne : some p1 ≠ some p2 := fun he => h12 (Option.some.inj he)
  intro t ht
  simp only [appendTrace, setParentTrace, setChildList_parent, hp, removeTrace, hp1,
    eq_self_iff_true, if_true, List.mem_cons, List.mem_append, List.mem_singleton,
    List.mem_nil_iff, or_false] at ht
  rcases ht with rfl | rfl | (rfl | rfl) | rfl
  · rintro ⟨hpa, _⟩
    rw [hp] at hpa
    exact hne hpa
  · rintro ⟨hpa, _⟩
    rw [setChildList_parent, hp] at hpa
    exact hne hpa
  · rintro ⟨hpa, _⟩
    rw [setParentRef_parent, if_pos rfl] at hpa
    exact Option.noConfusion hpa
  · rintro ⟨hpa, _⟩
    rw [setChildList_parent, setParentRef_parent, if_pos rfl] at hpa
    exact Option.noConfusion hpa
  · rintro ⟨_, hmem⟩
    rw [setParentRef_children, removeOp_children_hit _ _ _ hp1, if_pos rfl] at hmem
    exact not_mem_filter_bne c _ hmem
/-- Witness for the amended C9 at a concrete reachable state. -/
theorem reparent_no_transient_new_parent_witness :
    ((0 : Nat) ≠ 1 ∧ 2 ∈ (runOps initState [Op.append 0 2]).children 0) ∧
      ∀ t ∈ appendTrace (runOps initState [Op.append 0 2]) 1 2,
        ¬(t.parent 2 = some 1 ∧ 2 ∈ t.children 0) :=
  ⟨⟨by decide, by decide⟩,
    reparent_no_transient_new_parent _ 0 1 2
      (childParentConsistent_runOps initState [Op.append 0 2] childParentConsistent_initState)
      (by decide) (by decide)⟩

/-- C10: re-appending a child to its current parent unlinks it.  When
`c`'s parent resolves to `p` and `c` appears exactly once in `p`'s
child collection, after `append(p, c)` the collection contains no
occurrence of `c`, while `c`'s parent reference still resolves to `p`:
the internal `remove` erases both the pre-existing entry and the entry
just pushed. -/
theorem reappend_unlinks (s : GraphState) (p c : Nat)
    (hp : s.parent c = some p) (_hone : (s.children p).count c = 1) :
    ((appendOp s p c).children p).count c = 0 ∧ (appendOp s p c).parent c = some p := by
  constructor
  · rw [appendOp_children_some _ _ _ _ hp, if_pos rfl, if_pos rfl]
    exact List.count_eq_zero.mpr (not_mem_filter_bne c _)
  · rw [appendOp_parent, if_pos rfl]
/-- Witness for C10 at a concrete reachable state. -/
theorem reappend_unlinks_witness :
    ((runOps initState [Op.append 0 1]).parent 1 = some 0 ∧
        ((runOps initState [Op.append 0 1]).children 0).count 1 = 1) ∧
      (((appendOp (runOps initState [Op.append 0 1]) 0 1).children 0).count 1 = 0 ∧
        (appendOp (runOps initState [Op.append 0 1]) 0 1).parent 1 = some 0) :=
  ⟨⟨by decide, by decide⟩, reappend_unlinks _ 0 1 (by decide) (by decide)⟩

end GraphNode
